import Mathlib

/-!
Verification development for the Image-Compressor backend (Express + sharp +
mongoose server, `server.js`).  The definitions below are a shallow embedding of
the server's route handlers and helper functions.  External effects (the sharp
codec, the HuggingFace detection call, the Gemini text-generation call, the
MongoDB save) are modelled as explicit function parameters returning
`Except String _`: a `.error` value stands for a thrown/rejected promise, an
`.ok` value for a successful result.  JavaScript numbers are modelled as `Nat`
(byte sizes, qualities) and, for the stored two-decimal compression ratio, as
an exact integer count of hundredths; strings as Lean `String`.
-/

namespace ImageCompressor

/-- Decidable equality on modelled call outcomes, so concrete runs can be
checked by `decide`. -/
instance {ε α : Type} [DecidableEq ε] [DecidableEq α] : DecidableEq (Except ε α) := fun a b =>
  match a, b with
  | .ok x, .ok y =>
    if h : x = y then .isTrue (by rw [h]) else .isFalse (by simp [h])
  | .error x, .error y =>
    if h : x = y then .isTrue (by rw [h]) else .isFalse (by simp [h])
  | .ok _, .error _ => .isFalse (by simp)
  | .error _, .ok _ => .isFalse (by simp)

/-! ### Character classes (JavaScript regex semantics, ASCII fragment)

The Gemini responses are parsed with the regexes `/QUALITY:\s*(\d+)/i`,
`/FORMAT:\s*(\w+)/i` and `/CONTEXT:\s*(.+)/i`.  We model `\s` by the ASCII
whitespace characters, `\w` by `[A-Za-z0-9_]`, and `.` by "anything except a
line terminator" (`\n`, `\r`). -/

def isWs (c : Char) : Bool :=
  c = ' ' || c = '\t' || c = '\n' || c = '\r' || c = '\x0b' || c = '\x0c'

def isWordChar (c : Char) : Bool :=
  c.isAlphanum || c = '_'

def isDotChar (c : Char) : Bool :=
  !(c = '\n' || c = '\r')

/-- Lowercasing as performed by `String.prototype.toLowerCase` on ASCII data. -/
def lowerStr (s : String) : String :=
  ⟨s.data.map Char.toLower⟩

/-- Trimming as performed by `String.prototype.trim`: strip whitespace from
both ends. -/
def trimWs (s : String) : String :=
  ⟨((s.data.dropWhile (fun c => isWs c)).reverse.dropWhile (fun c => isWs c)).reverse⟩

/-- Case-insensitive prefix test: `key` (given lowercase) matches the head of
the subject after lowercasing, as the `i` flag does. -/
def icPrefix : List Char → List Char → Bool
  | [], _ => true
  | _ :: _, [] => false
  | k :: ks, c :: cs => k = c.toLower && icPrefix ks cs

/-- Regex scanning: try to match at every position from the left, returning
the first successful match, like `String.prototype.match` with an unanchored
pattern. -/
def scanFor (key : List Char) (after : List Char → Option α) : List Char → Option α
  | [] => none
  | c :: cs =>
    match (if icPrefix key (c :: cs) then after ((c :: cs).drop key.length) else none) with
    | some r => some r
    | none => scanFor key after cs

/-- Decimal value of a digit string, as `parseInt` computes it on an
all-digits input. -/
def digitsVal (ds : List Char) : Nat :=
  ds.foldl (fun n c => n * 10 + (c.toNat - 48)) 0

/-- Continuation for `\s*(\d+)`: skip whitespace, then require at least one
digit and capture the maximal digit run. -/
def qualAfter (r : List Char) : Option Nat :=
  let s := r.dropWhile (fun c => isWs c)
  let ds := s.takeWhile (fun c => c.isDigit)
  if ds.isEmpty then none else some (digitsVal ds)

/-- Continuation for `\s*(\w+)`: skip whitespace, then require at least one
word character and capture the maximal word run. -/
def wordAfter (r : List Char) : Option String :=
  let s := r.dropWhile (fun c => isWs c)
  let ws := s.takeWhile (fun c => isWordChar c)
  if ws.isEmpty then none else some ⟨ws⟩

/-- Continuation for `\s*(.+)` with backtracking: the engine first consumes as
much whitespace as possible, backing off until the remainder starts with a
non-line-terminator character; the capture is then the maximal `.`-run. -/
def ctxAfter : List Char → Option String
  | [] => none
  | c :: cs =>
    if isWs c then
      match ctxAfter cs with
      | some r => some r
      | none =>
        if isDotChar c then some ⟨(c :: cs).takeWhile (fun d => isDotChar d)⟩ else none
    else some ⟨(c :: cs).takeWhile (fun d => isDotChar d)⟩

/-- Model of `response.match(/QUALITY:\s*(\d+)/i)` followed by `parseInt` on
the captured group. -/
def matchQuality (s : String) : Option Nat :=
  scanFor "quality:".data qualAfter s.data

/-- Model of `response.match(/FORMAT:\s*(\w+)/i)`, first capture group. -/
def matchFormat (s : String) : Option String :=
  scanFor "format:".data wordAfter s.data

/-- Model of `response.match(/CONTEXT:\s*(.+)/i)`, first capture group. -/
def matchContext (s : String) : Option String :=
  scanFor "context:".data ctxAfter s.data

/-! ### getAIQualityRecommendation -/

structure QualityRec where
  quality : Nat
  format : String
  context : String
deriving DecidableEq

/-- Model of `getAIQualityRecommendation(prompt)`.  The argument is the
outcome of the Gemini `generateContent` call: `.ok response` is the response
text, `.error _` a thrown error (network failure, unreachable service).  The
`catch` branch returns the hard-coded defaults; otherwise each field falls
back individually when its regex fails to match. -/
def getAIQualityRecommendation (call : Except String String) : QualityRec :=
  match call with
  | .error _ => { quality := 80, format := "webp", context := "Default optimization" }
  | .ok resp =>
    { quality := (matchQuality resp).getD 80
      format := ((matchFormat resp).map lowerStr).getD "webp"
      context := ((matchContext resp).map trimWs).getD "Balanced optimization" }

/-- JavaScript truthiness of the optional string fields destructured from the
request body: absent (`none`) and the empty string are falsy. -/
def truthy : Option String → Bool
  | none => false
  | some s => !s.isEmpty

inductive AiQualityResponse where
  | badRequest (error : String)
  | ok (success : Bool) (recommendation : QualityRec)
deriving DecidableEq

/-- Model of `app.post('/api/ai-quality')`: reject a missing/empty prompt with
a 400, otherwise answer `{success: true, recommendation}`. -/
def aiQualityHandler (call : String → Except String String) (prompt : Option String) :
    AiQualityResponse :=
  if truthy prompt then .ok true (getAIQualityRecommendation (call (prompt.getD "")))
  else .badRequest "Prompt is required"

/-! ### Regions and the adaptive quality heuristic -/

/-- One detection returned by the HuggingFace DETR model.  The server only
ever reads the `label` field (which may be absent on malformed entries, hence
`Option`); `score` and `box` are carried along verbatim and never inspected,
so they are not modelled. -/
structure Region where
  label : Option String
deriving DecidableEq

/-- Substring test with the semantics of `String.prototype.includes`. -/
def strIncludes (hay needle : List Char) : Bool :=
  match hay with
  | [] => needle.isEmpty
  | _ :: t => needle.isPrefixOf hay || strIncludes t needle

/-- The fixed keyword list from `adaptiveCompress` (note `'cell phone'`, not
`'phone'`). -/
def importantLabels : List String :=
  ["person", "face", "text", "book", "laptop", "cell phone"]

/-- Model of `region.label && region.label.toLowerCase().includes(label)`
tested against every keyword. -/
def regionIsImportant (r : Region) : Bool :=
  match r.label with
  | none => false
  | some l => !l.isEmpty && importantLabels.any (fun k => strIncludes (lowerStr l).data k.data)

/-- Model of the `hasImportantRegions` constant in `adaptiveCompress`. -/
def hasImportantRegions (regions : List Region) : Bool :=
  regions.any regionIsImportant

/-- The quality adjustment performed by `adaptiveCompress`:
`if (hasImportantRegions && targetQuality < 90) targetQuality =
Math.min(targetQuality + 10, 95)`. -/
def adjustQuality (regions : List Region) (targetQuality : Nat) : Nat :=
  if hasImportantRegions regions && decide (targetQuality < 90) then
    min (targetQuality + 10) 95
  else targetQuality

/-! ### Paths, formats and the sharp codec model -/

/-- Bytes of a file or buffer. -/
abbrev Buffer := List Nat

/-- Model of `String.prototype.replace(search, repl)` with a string search
pattern: replace the first occurrence only, return the input unchanged when
the pattern does not occur. -/
def replaceFirstAux (search repl : List Char) : List Char → List Char
  | [] => []
  | c :: cs =>
    if search.isPrefixOf (c :: cs) then repl ++ (c :: cs).drop search.length
    else c :: replaceFirstAux search repl cs

def replaceFirst (s search repl : String) : String :=
  ⟨replaceFirstAux search.data repl.data s.data⟩

/-- Derivation of the output path in `adaptiveCompress`:
`imagePath.replace('original-', 'compressed-FORMAT-')`. -/
def compressedPathOf (imagePath targetFormat : String) : String :=
  replaceFirst imagePath "original-" ("compressed-" ++ targetFormat ++ "-")

/-- Basename of a path (the part after the last slash). -/
def basenameOf (l : List Char) : List Char :=
  (l.reverse.takeWhile (fun c => c ≠ '/')).reverse

/-- Extension of a basename, with the semantics of Node's `path.extname`:
everything from the last dot to the end; empty when there is no dot or when
the only dot is the leading character. -/
def extFrom (base : List Char) : List Char :=
  let t := base.reverse.takeWhile (fun c => c ≠ '.')
  if t.length = base.length then []
  else if t.length + 1 = base.length then []
  else '.' :: t.reverse

def extnameOf (p : String) : String :=
  ⟨extFrom (basenameOf p.data)⟩

/-- Output formats supported by the sharp wrapper. -/
inductive SharpFormat where
  | jpeg
  | webp
  | avif
  | png
deriving DecidableEq

/-- Encode operation selected by the `switch (targetFormat)` in
`adaptiveCompress`, with the fixed per-format constants (WebP effort 6, AVIF
effort 9, PNG compressionLevel `Math.floor((100-q)/10)`, JPEG
progressive+mozjpeg).  Any unrecognised format string falls into the JPEG
default branch. -/
inductive EncodeOp where
  | webp (quality effort : Nat)
  | avif (quality effort : Nat)
  | png (compressionLevel : Int)
  | jpeg (quality : Nat) (progressive mozjpeg : Bool)
deriving DecidableEq

def encodeOpFor (targetFormat : String) (q : Nat) : EncodeOp :=
  if targetFormat = "webp" then .webp q 6
  else if targetFormat = "avif" then .avif q 9
  else if targetFormat = "png" then .png ((100 - (q : Int)).fdiv 10)
  else .jpeg q true true

/-- Output format sharp infers from a file extension when
`sharp(buffer).toFile(path)` is called (modelled for the four formats the
server produces; anything else makes `toFile` reject). -/
def inferFormat (ext : String) : Option SharpFormat :=
  let e := lowerStr ext
  if e = ".jpg" || e = ".jpeg" then some .jpeg
  else if e = ".webp" then some .webp
  else if e = ".avif" then some .avif
  else if e = ".png" then some .png
  else none

/-- Abstract model of the sharp codec: `encode` is the first-pass encode
(`image.webp({...}).toBuffer()` etc.), `write` the re-encode performed by
`sharp(compressedBuffer).toFile(compressedPath)`, whose output format is the
one inferred from the path extension and whose options are sharp's defaults.
Either call may fail (`Except.error` = thrown). -/
structure SharpModel where
  encode : EncodeOp → Buffer → Except String Buffer
  write : SharpFormat → Buffer → Except String Buffer

structure CompressResult where
  compressedPath : String
  compressedSize : Nat
  quality : Nat
  format : String
deriving DecidableEq

/-- Model of `adaptiveCompress(imagePath, regions, targetFormat,
targetQuality)`.  On success it returns the result object together with the
path and bytes actually written to disk by the `toFile` re-encode.  Note that
`compressedSize` is the length of the first-pass buffer, not of the bytes
written. -/
def adaptiveCompress (m : SharpModel) (src : Buffer) (imagePath : String)
    (regions : List Region) (targetFormat : String) (targetQuality : Nat) :
    Except String (CompressResult × String × Buffer) :=
  match m.encode (encodeOpFor targetFormat (adjustQuality regions targetQuality)) src with
  | .error e => .error e
  | .ok buf =>
    match inferFormat (extnameOf (compressedPathOf imagePath targetFormat)) with
    | none => .error "Unsupported output format"
    | some f =>
      match m.write f buf with
      | .error e => .error e
      | .ok diskBytes =>
        .ok ({ compressedPath := compressedPathOf imagePath targetFormat,
               compressedSize := buf.length,
               quality := adjustQuality regions targetQuality,
               format := targetFormat }, compressedPathOf imagePath targetFormat, diskBytes)

/-- Codec model whose encodes succeed and return the input unchanged; used to
instantiate theorems on concrete inputs. -/
def trivialSharp : SharpModel where
  encode := fun _ b => .ok b
  write := fun _ b => .ok b

/-! ### The upload route -/

/-- The compression-ratio formula of the upload handler,
`((originalSize - compressedSize) / originalSize * 100).toFixed(2)` followed
by `parseFloat`, i.e. the percentage rounded to two decimals with ties going
to the larger value.  The two-decimal number is represented exactly as an
integer count of hundredths of a percent (so 33.33 is stored as 3333); the
formula below is the integer-arithmetic form of
`round((o - c) / o * 10000)` with round-half-up, which the theorem
`ratioCents_eq_round` relates to the textbook `round` on `ℚ`. -/
def ratioCents (o c : Nat) : Int :=
  (2 * (10000 * ((o : Int) - (c : Int))) + (o : Int)) / (2 * (o : Int))

/-- A persisted `Image` document.  `createdAt` is the creation timestamp the
schema defaults to `Date.now`. -/
structure ImageRecord where
  originalName : String
  originalSize : Nat
  compressedSize : Nat
  compressionRatio : Int
  originalPath : String
  compressedPath : String
  aiRegions : List Region
  format : String
  quality : Nat
  aiSuggestion : Option String
  promptUsed : Option String
  createdAt : Nat
deriving DecidableEq

/-- One entry of `req.files` as produced by multer: the stored path
(`uploads/original-<suffix><ext>`), the measured byte size, the
client-supplied name, and the stored bytes. -/
structure FileInput where
  path : String
  size : Nat
  originalname : String
  bytes : Buffer
deriving DecidableEq

/-- External world of one upload request: the codec, the detection call, the
Gemini quality call, the MongoDB save, and the clock used for `createdAt`. -/
structure UploadEnv where
  sharp : SharpModel
  detect : String → Except String (List Region)
  aiQuality : String → Except String String
  save : ImageRecord → Except String Unit
  now : Nat

/-- Model of `detectRegions(imagePath)`: return the response data verbatim,
or an empty array when the call threw (network error, timeout, non-2xx); the
error is only logged. -/
def detectRegions (result : Except String (List Region)) : List Region :=
  match result with
  | .ok d => d
  | .error _ => []

/-- Mutable state the handlers touch: the `images` collection and the files
on disk under `uploads/`. -/
structure ServerState where
  db : List ImageRecord
  disk : List (String × Buffer)
deriving DecidableEq

/-- The `aiRecommendation` local of the upload loop: the Gemini
recommendation is requested only when a (truthy) prompt was supplied. -/
def aiRecOf (env : UploadEnv) (prompt : Option String) : Option QualityRec :=
  if truthy prompt then some (getAIQualityRecommendation (env.aiQuality (prompt.getD "")))
  else none

/-- The `targetFormat` local: the recommendation overrides the request
parameter. -/
def pickFormat (ai : Option QualityRec) (format : String) : String :=
  match ai with
  | some r => r.format
  | none => format

/-- The `targetQuality` local: the recommendation overrides the request
parameter. -/
def pickQuality (ai : Option QualityRec) (quality : Nat) : Nat :=
  match ai with
  | some r => r.quality
  | none => quality

/-- The document built by `new Image({...})` in the upload loop, given the
result of `adaptiveCompress`. -/
def recordOf (env : UploadEnv) (format : String) (_quality : Nat)
    (prompt : Option String) (f : FileInput) (res : CompressResult) : ImageRecord :=
  { originalName := f.originalname
    originalSize := f.size
    compressedSize := res.compressedSize
    compressionRatio := ratioCents f.size res.compressedSize
    originalPath := f.path
    compressedPath := res.compressedPath
    aiRegions := detectRegions (env.detect f.path)
    format := pickFormat (aiRecOf env prompt) format
    quality := res.quality
    aiSuggestion := (aiRecOf env prompt).map (fun r => r.context)
    promptUsed := prompt
    createdAt := env.now }

/-- Per-file body of the `for (const file of req.files)` loop in
`app.post('/api/upload')`: detect regions, override format/quality from the
Gemini recommendation when a prompt was supplied, compress, compute the
ratio, persist the record.  The returned state records the disk write done by
`adaptiveCompress` and the database append done by `imageRecord.save()`; on a
thrown error the state keeps whatever side effects already happened. -/
def processFile (env : UploadEnv) (format : String) (quality : Nat)
    (prompt : Option String) (f : FileInput) (st : ServerState) :
    Except String ImageRecord × ServerState :=
  match adaptiveCompress env.sharp f.bytes f.path (detectRegions (env.detect f.path))
      (pickFormat (aiRecOf env prompt) format) (pickQuality (aiRecOf env prompt) quality) with
  | .error e => (.error e, st)
  | .ok (res, wpath, wbytes) =>
    match env.save (recordOf env format quality prompt f res) with
    | .error e => (.error e, { st with disk := st.disk ++ [(wpath, wbytes)] })
    | .ok _ =>
      (.ok (recordOf env format quality prompt f res),
       { db := st.db ++ [recordOf env format quality prompt f res],
         disk := st.disk ++ [(wpath, wbytes)] })

/-- The sequential loop over `req.files`: stop at the first thrown error
(which the surrounding `try` turns into a 500), otherwise collect the results
in order. -/
def uploadLoop (env : UploadEnv) (format : String) (quality : Nat)
    (prompt : Option String) : List FileInput → ServerState →
    Except String (List ImageRecord) × ServerState
  | [], st => (.ok [], st)
  | f :: fs, st =>
    match processFile env format quality prompt f st with
    | (.error e, st') => (.error e, st')
    | (.ok r, st') =>
      match uploadLoop env format quality prompt fs st' with
      | (.error e, st'') => (.error e, st'')
      | (.ok rs, st'') => (.ok (r :: rs), st'')

inductive UploadResponse where
  | badRequest (error : String)
  | serverError (error details : String)
  | ok (data : List ImageRecord) (batch : Bool)
deriving DecidableEq

/-- Model of `app.post('/api/upload')`.  `formatParam` and `qualityParam` are
the request-body fields with their destructuring defaults (`'webp'`, `80`);
the quality field is modelled after `parseInt` has been applied to a
well-formed decimal numeral.  A thrown error anywhere in the loop aborts the
whole request with a 500 payload and no partial results; already-performed
writes stay in the returned state. -/
def uploadHandler (env : UploadEnv) (formatParam : Option String)
    (qualityParam : Option Nat) (prompt : Option String) (files : List FileInput)
    (st : ServerState) : UploadResponse × ServerState :=
  if files.isEmpty then (.badRequest "No image files provided", st)
  else
    match uploadLoop env (formatParam.getD "webp") (qualityParam.getD 80) prompt files st with
    | (.error e, st') => (.serverError "Failed to process images" e, st')
    | (.ok rs, st') => (.ok rs (decide (1 < rs.length)), st')

/-! ### The batch-download route -/

/-- A document together with the `_id` MongoDB assigned it. -/
structure StoredImage where
  id : Nat
  record : ImageRecord
deriving DecidableEq

inductive DownloadResponse where
  | badRequest (error : String)
  | zipStream (headers : List (String × String)) (entries : List (String × String))
deriving DecidableEq

/-- Model of `app.post('/api/download-batch')`: reject a missing/empty id
list, otherwise look the ids up (`Image.find({_id: {$in: imageIds}})`), skip
records whose `compressedPath` no longer exists on disk, and stream the rest
into a zip.  An archive entry is `(name, sourcePath)`; `headers` are exactly
the two headers the handler sets (no Content-Length). -/
def downloadBatch (db : List StoredImage) (disk : List String)
    (imageIds : Option (List Nat)) : DownloadResponse :=
  match imageIds with
  | none => .badRequest "No image IDs provided"
  | some ids =>
    if ids.isEmpty then .badRequest "No image IDs provided"
    else
      let images := db.filter (fun s => ids.contains s.id)
      let entries :=
        (images.filter (fun s => disk.contains s.record.compressedPath)).map
          (fun s =>
            ("compressed-" ++ s.record.format ++ "-" ++ s.record.originalName,
             s.record.compressedPath))
      .zipStream
        [("Content-Type", "application/zip"),
         ("Content-Disposition", "attachment; filename=\"compressed-images.zip\"")]
        entries

/-! ### The recent-compressions route -/

/-- The projection selected by `.select('originalName originalSize
compressedSize compressionRatio format quality createdAt')`. -/
structure ImageSummary where
  originalName : String
  originalSize : Nat
  compressedSize : Nat
  compressionRatio : Int
  format : String
  quality : Nat
  createdAt : Nat
deriving DecidableEq

def summaryOf (r : ImageRecord) : ImageSummary :=
  { originalName := r.originalName
    originalSize := r.originalSize
    compressedSize := r.compressedSize
    compressionRatio := r.compressionRatio
    format := r.format
    quality := r.quality
    createdAt := r.createdAt }

/-- Sort order of `.sort({createdAt: -1})`: newest first. -/
def newestFirst (a b : ImageRecord) : Prop :=
  b.createdAt ≤ a.createdAt

instance : DecidableRel newestFirst :=
  fun a b => Nat.decLe b.createdAt a.createdAt

instance : IsTotal ImageRecord newestFirst :=
  ⟨fun a b => (Nat.le_total b.createdAt a.createdAt).imp id id⟩

instance : IsTrans ImageRecord newestFirst :=
  ⟨fun _ _ _ h h' => Nat.le_trans h' h⟩

/-- Model of the query in `app.get('/api/recent')`:
`Image.find().sort({createdAt:-1}).limit(10).select(...)`. -/
def recentQuery (db : List ImageRecord) : List ImageSummary :=
  ((db.insertionSort newestFirst).take 10).map summaryOf

/-- Model of `app.get('/api/recent')` as a state transformer: it only reads
the collection. -/
def recentHandler (st : ServerState) : List ImageSummary × ServerState :=
  (recentQuery st.db, st)

/-! ### Spec-side definitions for refinement comparison -/

/-- Modelled from the spec's words for the compression-engine policy (claim
C2): keyword set "(person, face, text, book, laptop, phone)" and "raise
quality by a fixed increment (+10, capped at 95) before encoding", with no
further condition on the requested quality. -/
def specImportantLabels : List String :=
  ["person", "face", "text", "book", "laptop", "phone"]

def specRegionIsImportant (r : Region) : Bool :=
  match r.label with
  | none => false
  | some l => !l.isEmpty && specImportantLabels.any (fun k => strIncludes (lowerStr l).data k.data)

def specAdjustQuality (regions : List Region) (targetQuality : Nat) : Nat :=
  if regions.any specRegionIsImportant then min (targetQuality + 10) 95
  else targetQuality

/-! ### Derived views of the per-file step (used to state batch-failure
behaviour) -/

/-- Outcome of processing one file; it does not depend on the server state. -/
def processOutcome (env : UploadEnv) (format : String) (quality : Nat)
    (prompt : Option String) (f : FileInput) : Except String ImageRecord :=
  (processFile env format quality prompt f ⟨[], []⟩).1

/-- Disk writes performed while processing one file (empty when the encode
fails, one file when the encode succeeds — even if the database save then
fails). -/
def processWrites (env : UploadEnv) (format : String) (quality : Nat)
    (prompt : Option String) (f : FileInput) : List (String × Buffer) :=
  (processFile env format quality prompt f ⟨[], []⟩).2.disk

/-- Database rows appended by one outcome. -/
def recListOf (o : Except String ImageRecord) : List ImageRecord :=
  match o with
  | .ok r => [r]
  | .error _ => []

/-- Records persisted for a list of files that all process successfully. -/
def uploadRecords (env : UploadEnv) (format : String) (quality : Nat)
    (prompt : Option String) (fs : List FileInput) : List ImageRecord :=
  fs.filterMap (fun g => (processOutcome env format quality prompt g).toOption)

/-- Disk writes accumulated over a list of files. -/
def uploadWrites (env : UploadEnv) (format : String) (quality : Nat)
    (prompt : Option String) (fs : List FileInput) : List (String × Buffer) :=
  (fs.map (fun g => processWrites env format quality prompt g)).flatten

/-! ### Concrete instances used to exercise the theorems -/

/-- Codec model used to exhibit the recorded-size/on-disk-size divergence:
the first pass yields one byte, the `toFile` re-encode two. -/
def c3Sharp : SharpModel where
  encode := fun _ _ => .ok [9]
  write := fun _ _ => .ok [4, 5]

/-- Empty server state. -/
def st0 : ServerState := { db := [], disk := [] }

/-- Environment in which every external call succeeds (the Gemini call is
down but is never consulted without a prompt). -/
def envOk : UploadEnv where
  sharp := trivialSharp
  detect := fun _ => .ok []
  aiQuality := fun _ => .error "unreachable"
  save := fun _ => .ok ()
  now := 5

/-- Environment whose detection service is unreachable. -/
def envDown : UploadEnv where
  sharp := trivialSharp
  detect := fun _ => .error "ETIMEDOUT"
  aiQuality := fun _ => .error "unreachable"
  save := fun _ => .ok ()
  now := 5

/-- Environment whose Gemini call answers with a well-formed recommendation. -/
def envAi : UploadEnv where
  sharp := trivialSharp
  detect := fun _ => .ok []
  aiQuality := fun _ => .ok "QUALITY: 60\nFORMAT: avif\nCONTEXT: email"
  save := fun _ => .ok ()
  now := 9

/-- Environment whose database rejects the save of the second file. -/
def envC7 : UploadEnv where
  sharp := trivialSharp
  detect := fun _ => .ok []
  aiQuality := fun _ => .error "unreachable"
  save := fun r => if r.originalName = "b.png" then .error "db down" else .ok ()
  now := 5

def fileOne : FileInput where
  path := "uploads/original-1.jpg"
  size := 2
  originalname := "a.jpg"
  bytes := [7]

def fileTwo : FileInput where
  path := "uploads/original-2.png"
  size := 3
  originalname := "b.png"
  bytes := [8]

/-- The record `envOk` (and `envDown`, `envC7`) persists for `fileOne`. -/
def recOne : ImageRecord where
  originalName := "a.jpg"
  originalSize := 2
  compressedSize := 1
  compressionRatio := 5000
  originalPath := "uploads/original-1.jpg"
  compressedPath := "uploads/compressed-webp-1.jpg"
  aiRegions := []
  format := "webp"
  quality := 80
  aiSuggestion := none
  promptUsed := none
  createdAt := 5

/-- The record `envAi` persists for `fileOne` under the prompt "email". -/
def recAi : ImageRecord where
  originalName := "a.jpg"
  originalSize := 2
  compressedSize := 1
  compressionRatio := 5000
  originalPath := "uploads/original-1.jpg"
  compressedPath := "uploads/compressed-avif-1.jpg"
  aiRegions := []
  format := "avif"
  quality := 60
  aiSuggestion := some "email"
  promptUsed := some "email"
  createdAt := 9

/-- A record whose compressed file is no longer on disk. -/
def recGone : ImageRecord where
  originalName := "c.png"
  originalSize := 8
  compressedSize := 4
  compressionRatio := 5000
  originalPath := "uploads/original-9.png"
  compressedPath := "uploads/compressed-webp-9.png"
  aiRegions := []
  format := "webp"
  quality := 80
  aiSuggestion := none
  promptUsed := none
  createdAt := 4

def dbW : List StoredImage := [⟨1, recOne⟩, ⟨2, recGone⟩]

def diskW : List String := ["uploads/compressed-webp-1.jpg"]

/-! ### Structural lemmas -/

theorem adaptiveCompress_ok {m : SharpModel} {src : Buffer} {path : String}
    {regions : List Region} {tf : String} {tq : Nat}
    {res : CompressResult} {p : String} {b : Buffer}
    (h : adaptiveCompress m src path regions tf tq = .ok (res, p, b)) :
    ∃ buf f,
      m.encode (encodeOpFor tf (adjustQuality regions tq)) src = .ok buf ∧
      inferFormat (extnameOf (compressedPathOf path tf)) = some f ∧
      m.write f buf = .ok b ∧
      p = compressedPathOf path tf ∧
      res = { compressedPath := compressedPathOf path tf, compressedSize := buf.length,
              quality := adjustQuality regions tq, format := tf } := by
  unfold adaptiveCompress at h
  split at h
  · exact absurd h (by simp)
  next buf henc =>
    split at h
    · exact absurd h (by simp)
    next f hinf =>
      split at h
      · exact absurd h (by simp)
      next db hw =>
        rw [Except.ok.injEq, Prod.mk.injEq, Prod.mk.injEq] at h
        obtain ⟨hres, hp, hb⟩ := h
        exact ⟨buf, f, henc, hinf, hb ▸ hw, hp.symm, hres.symm⟩

theorem processFile_eq (env : UploadEnv) (format : String) (quality : Nat)
    (prompt : Option String) (f : FileInput) (st : ServerState) :
    processFile env format quality prompt f st =
      (processOutcome env format quality prompt f,
       { db := st.db ++ recListOf (processOutcome env format quality prompt f),
         disk := st.disk ++ processWrites env format quality prompt f }) := by
  unfold processOutcome processWrites processFile
  cases adaptiveCompress env.sharp f.bytes f.path (detectRegions (env.detect f.path))
      (pickFormat (aiRecOf env prompt) format) (pickQuality (aiRecOf env prompt) quality) with
  | error e => simp [recListOf]
  | ok v =>
    obtain ⟨res, wpath, wbytes⟩ := v
    cases hs : env.save (recordOf env format quality prompt f res) with
    | error e => simp [recListOf, hs]
    | ok u => simp [recListOf, hs]

theorem takeWhile_append_all {α} {p : α → Bool} :
    ∀ {a : List α} (b : List α), (∀ c ∈ a, p c) → (a ++ b).takeWhile p = a ++ b.takeWhile p := by
  intro a
  induction a with
  | nil => intro b _; rfl
  | cons x xs ih =>
    intro b h
    rw [List.cons_append, List.takeWhile_cons, if_pos (h x (by simp)),
      ih b (fun c hc => h c (by simp [hc])), List.cons_append]

theorem takeWhile_all {α} {p : α → Bool} {a : List α} (h : ∀ c ∈ a, p c) :
    a.takeWhile p = a := by
  have := takeWhile_append_all (p := p) (a := a) [] h
  simpa using this

theorem takeWhile_append_stop {α} {p : α → Bool} :
    ∀ {a : List α} (b : List α), (¬ ∀ c ∈ a, p c) → (a ++ b).takeWhile p = a.takeWhile p := by
  intro a
  induction a with
  | nil => intro b h; exact absurd (by simp) h
  | cons x xs ih =>
    intro b h
    by_cases hx : p x
    · have hxs : ¬ ∀ c ∈ xs, p c := by
        intro hall
        exact h (fun c hc => by
          rcases List.mem_cons.mp hc with h1 | h1
          · exact h1 ▸ hx
          · exact hall c h1)
      rw [List.cons_append, List.takeWhile_cons, List.takeWhile_cons, if_pos hx, if_pos hx,
        ih b hxs]
    · rw [List.cons_append, List.takeWhile_cons, List.takeWhile_cons, if_neg hx, if_neg hx]

theorem length_takeWhile_lt {α} {p : α → Bool} :
    ∀ {a : List α}, (¬ ∀ c ∈ a, p c) → (a.takeWhile p).length < a.length := by
  intro a
  induction a with
  | nil => intro h; exact absurd (by simp) h
  | cons x xs ih =>
    intro h
    by_cases hx : p x
    · have hxs : ¬ ∀ c ∈ xs, p c := by
        intro hall
        exact h (fun c hc => by
          rcases List.mem_cons.mp hc with h1 | h1
          · exact h1 ▸ hx
          · exact hall c h1)
      rw [List.takeWhile_cons, if_pos hx]
      simpa using ih hxs
    · rw [List.takeWhile_cons, if_neg hx]
      simp

theorem basenameOf_append {pre rest : List Char} (h : ∀ c ∈ rest, c ≠ '/') :
    basenameOf (pre ++ rest) = basenameOf pre ++ rest := by
  unfold basenameOf
  rw [List.reverse_append,
    takeWhile_append_all pre.reverse
      (by intro c hc; simpa using h c (List.mem_reverse.mp hc)),
    List.reverse_append, List.reverse_reverse]

theorem extFrom_append {a b r : List Char}
    (ha : ∀ c ∈ a, c ≠ '.') (hb : ∀ c ∈ b, c ≠ '.')
    (ha0 : a ≠ []) (hb0 : b ≠ []) :
    extFrom (a ++ r) = extFrom (b ++ r) := by
  by_cases hr : ∀ c ∈ r, c ≠ '.'
  · unfold extFrom
    have hall : ∀ (x : List Char), (∀ c ∈ x, c ≠ '.') →
        ((x ++ r).reverse.takeWhile (fun c => c ≠ '.')) = (x ++ r).reverse := by
      intro x hx
      refine takeWhile_all ?_
      intro c hc
      rcases List.mem_append.mp (List.mem_reverse.mp hc) with h1 | h1
      · simpa using hx c h1
      · simpa using hr c h1
    rw [hall a ha, hall b hb]
    simp [Nat.add_comm]
  · have hr' : ¬ ∀ c ∈ r.reverse, ((c ≠ '.') : Bool) := by
      intro hall
      exact hr (fun c hc => by simpa using hall c (List.mem_reverse.mpr hc))
    have key : ∀ (x : List Char), (x ≠ []) →
        extFrom (x ++ r) = '.' :: (r.reverse.takeWhile (fun c => c ≠ '.')).reverse := by
      intro x hx
      unfold extFrom
      rw [List.reverse_append, takeWhile_append_stop x.reverse hr']
      have hlt : (r.reverse.takeWhile (fun c => c ≠ '.')).length < r.length := by
        simpa using length_takeWhile_lt hr'
      have hx1 : 1 ≤ x.length := by
        cases x with
        | nil => exact absurd rfl hx
        | cons y ys => simp
      have hne1 : (r.reverse.takeWhile (fun c => c ≠ '.')).length ≠ (x ++ r).length := by
        simp only [List.length_append]
        omega
      have hne2 : (r.reverse.takeWhile (fun c => c ≠ '.')).length + 1 ≠ (x ++ r).length := by
        simp only [List.length_append]
        omega
      rw [if_neg hne1, if_neg hne2]
    rw [key a ha0, key b hb0]

theorem isPrefixOf_append_self {α} [BEq α] [LawfulBEq α] (a b : List α) :
    a.isPrefixOf (a ++ b) = true := by
  induction a with
  | nil => simp [List.isPrefixOf]
  | cons x xs ih => simp [List.isPrefixOf, ih]

theorem rfa_step (search repl : List Char) (c : Char) (cs : List Char)
    (h : search.isPrefixOf (c :: cs) = false) :
    replaceFirstAux search repl (c :: cs) = c :: replaceFirstAux search repl cs := by
  conv_lhs => rw [replaceFirstAux]
  simp [h]

theorem rfa_found (search repl tail : List Char) (h : search ≠ []) :
    replaceFirstAux search repl (search ++ tail) = repl ++ tail := by
  cases search with
  | nil => exact absurd rfl h
  | cons s ss =>
    rw [List.cons_append]
    unfold replaceFirstAux
    rw [if_pos]
    · rw [← List.cons_append, List.drop_left]
    · rw [← List.cons_append]
      exact isPrefixOf_append_self (s :: ss) tail

theorem replaceFirst_uploads (repl : String) (rest : List Char) :
    replaceFirstAux "original-".data repl.data ("uploads/original-".data ++ rest) =
      "uploads/".data ++ (repl.data ++ rest) := by
  show replaceFirstAux ('o' :: 'r' :: 'i' :: 'g' :: 'i' :: 'n' :: 'a' :: 'l' :: '-' :: [])
      repl.data
      ('u' :: 'p' :: 'l' :: 'o' :: 'a' :: 'd' :: 's' :: '/' ::
        'o' :: 'r' :: 'i' :: 'g' :: 'i' :: 'n' :: 'a' :: 'l' :: '-' :: rest) =
    'u' :: 'p' :: 'l' :: 'o' :: 'a' :: 'd' :: 's' :: '/' :: (repl.data ++ rest)
  rw [rfa_step _ _ _ _ (by simp [List.isPrefixOf]),
    rfa_step _ _ _ _ (by simp [List.isPrefixOf]),
    rfa_step _ _ _ _ (by simp [List.isPrefixOf]),
    rfa_step _ _ _ _ (by simp [List.isPrefixOf]),
    rfa_step _ _ _ _ (by simp [List.isPrefixOf]),
    rfa_step _ _ _ _ (by simp [List.isPrefixOf]),
    rfa_step _ _ _ _ (by simp [List.isPrefixOf]),
    rfa_step _ _ _ _ (by simp [List.isPrefixOf])]
  have hf := rfa_found ('o' :: 'r' :: 'i' :: 'g' :: 'i' :: 'n' :: 'a' :: 'l' :: '-' :: [])
      repl.data rest (by simp)
  simp only [List.cons_append, List.nil_append] at hf
  rw [hf]

theorem compressedPathOf_uploads (tf rest : String) :
    compressedPathOf ("uploads/original-" ++ rest) tf =
      ("uploads/" ++ ("compressed-" ++ tf ++ "-")) ++ rest := by
  show String.mk (replaceFirstAux "original-".data ("compressed-" ++ tf ++ "-").data
      ("uploads/original-".data ++ rest.data)) =
    String.mk (("uploads/".data ++ ("compressed-" ++ tf ++ "-").data) ++ rest.data)
  rw [replaceFirst_uploads, List.append_assoc]

theorem extname_preserved (tf s e : String)
    (htf : ∀ c ∈ tf.data, c ≠ '.' ∧ c ≠ '/')
    (hs : ∀ c ∈ s.data, c ≠ '/') (he : ∀ c ∈ e.data, c ≠ '/') :
    extnameOf (compressedPathOf ("uploads/original-" ++ (s ++ e)) tf) =
      extnameOf ("uploads/original-" ++ (s ++ e)) := by
  rw [compressedPathOf_uploads]
  unfold extnameOf
  have hrest : ∀ c ∈ s.data ++ e.data, c ≠ '/' := by
    intro c hc
    rcases List.mem_append.mp hc with h1 | h1
    · exact hs c h1
    · exact he c h1
  have hrepl : ∀ c ∈ ("compressed-".data ++ tf.data) ++ "-".data, c ≠ '/' := by
    intro c hc
    rcases List.mem_append.mp hc with h1 | h1
    · rcases List.mem_append.mp h1 with h2 | h2
      · exact (show ∀ x ∈ "compressed-".data, x ≠ '/' by decide) c h2
      · exact (htf c h2).2
    · exact (show ∀ x ∈ "-".data, x ≠ '/' by decide) c h1
  have hadot : ∀ c ∈ ("compressed-".data ++ tf.data) ++ "-".data, c ≠ '.' := by
    intro c hc
    rcases List.mem_append.mp hc with h1 | h1
    · rcases List.mem_append.mp h1 with h2 | h2
      · exact (show ∀ x ∈ "compressed-".data, x ≠ '.' by decide) c h2
      · exact (htf c h2).1
    · exact (show ∀ x ∈ "-".data, x ≠ '.' by decide) c h1
  have h1 : basenameOf ("uploads/original-" ++ (s ++ e)).data
      = "original-".data ++ (s.data ++ e.data) := by
    show basenameOf ("uploads/original-".data ++ (s.data ++ e.data)) = _
    rw [basenameOf_append hrest,
      show basenameOf "uploads/original-".data = "original-".data from by decide]
  have h2 : basenameOf (("uploads/" ++ ("compressed-" ++ tf ++ "-")) ++ (s ++ e)).data
      = (("compressed-".data ++ tf.data) ++ "-".data) ++ (s.data ++ e.data) := by
    show basenameOf (("uploads/".data ++ (("compressed-".data ++ tf.data) ++ "-".data))
        ++ (s.data ++ e.data)) = _
    rw [basenameOf_append hrest, basenameOf_append hrepl,
      show basenameOf "uploads/".data = ([] : List Char) from by decide, List.nil_append]
  rw [h1, h2]
  exact congrArg String.mk
    (extFrom_append hadot (show ∀ c ∈ "original-".data, c ≠ '.' by decide)
      (by simp) (by decide))

theorem processOutcome_ok {env : UploadEnv} {format : String} {quality : Nat}
    {prompt : Option String} {f : FileInput} {r : ImageRecord}
    (h : processOutcome env format quality prompt f = .ok r) :
    ∃ res wpath wbytes,
      adaptiveCompress env.sharp f.bytes f.path (detectRegions (env.detect f.path))
          (pickFormat (aiRecOf env prompt) format) (pickQuality (aiRecOf env prompt) quality) =
        .ok (res, wpath, wbytes) ∧
      r = recordOf env format quality prompt f res := by
  unfold processOutcome processFile at h
  split at h
  · exact absurd h (by simp)
  next res wpath wbytes hc =>
    split at h
    · exact absurd h (by simp)
    next u hs =>
      simp only [Except.ok.injEq] at h
      exact ⟨res, wpath, wbytes, hc, h.symm⟩

theorem uploadLoop_ok_forall (env : UploadEnv) (format : String) (quality : Nat)
    (prompt : Option String) :
    ∀ (fs : List FileInput) (st : ServerState),
      (∀ g ∈ fs, ∃ r, processOutcome env format quality prompt g = .ok r) →
      uploadLoop env format quality prompt fs st =
        (.ok (uploadRecords env format quality prompt fs),
         { db := st.db ++ uploadRecords env format quality prompt fs,
           disk := st.disk ++ uploadWrites env format quality prompt fs }) := by
  intro fs
  induction fs with
  | nil =>
    intro st _
    simp [uploadLoop, uploadRecords, uploadWrites]
  | cons g gs ih =>
    intro st h
    obtain ⟨r, hr⟩ := h g (by simp)
    rw [uploadLoop, processFile_eq, hr]
    dsimp only []
    rw [ih _ (fun g' hg' => h g' (by simp [hg']))]
    simp [uploadRecords, uploadWrites, hr, Except.toOption, recListOf, List.append_assoc]

theorem uploadLoop_err (env : UploadEnv) (format : String) (quality : Nat)
    (prompt : Option String) :
    ∀ (good : List FileInput) (bad : FileInput) (rest : List FileInput)
      (st : ServerState) (e : String),
      (∀ g ∈ good, ∃ r, processOutcome env format quality prompt g = .ok r) →
      processOutcome env format quality prompt bad = .error e →
      uploadLoop env format quality prompt (good ++ bad :: rest) st =
        (.error e,
         { db := st.db ++ uploadRecords env format quality prompt good,
           disk := st.disk ++ uploadWrites env format quality prompt good ++
                     processWrites env format quality prompt bad }) := by
  intro good
  induction good with
  | nil =>
    intro bad rest st e _ hb
    rw [List.nil_append, uploadLoop, processFile_eq, hb]
    simp [uploadRecords, uploadWrites, recListOf]
  | cons g gs ih =>
    intro bad rest st e hg hb
    obtain ⟨r, hr⟩ := hg g (by simp)
    rw [List.cons_append, uploadLoop, processFile_eq, hr]
    dsimp only []
    rw [ih bad rest _ e (fun g' hg' => hg g' (by simp [hg'])) hb]
    simp [uploadRecords, uploadWrites, hr, Except.toOption, recListOf, List.append_assoc]

theorem uploadLoop_ok_mem {env : UploadEnv} {format : String} {quality : Nat}
    {prompt : Option String} :
    ∀ {fs : List FileInput} {st : ServerState} {rs : List ImageRecord} {st' : ServerState},
      uploadLoop env format quality prompt fs st = (.ok rs, st') →
      ∀ r ∈ rs, ∃ f res, f ∈ fs ∧ r = recordOf env format quality prompt f res := by
  intro fs
  induction fs with
  | nil =>
    intro st rs st' h r hr
    simp [uploadLoop] at h
    rcases h with ⟨h1, _⟩
    subst h1
    simp at hr
  | cons g gs ih =>
    intro st rs st' h r hr
    rw [uploadLoop, processFile_eq] at h
    cases ho : processOutcome env format quality prompt g with
    | error e =>
      rw [ho] at h
      dsimp only [] at h
      simp at h
    | ok r0 =>
      rw [ho] at h
      dsimp only [] at h
      cases hrec : uploadLoop env format quality prompt gs
          { db := st.db ++ recListOf (Except.ok r0),
            disk := st.disk ++ processWrites env format quality prompt g } with
      | mk o st2 =>
        rw [hrec] at h
        cases o with
        | error e =>
          dsimp only [] at h
          simp at h
        | ok rs0 =>
          dsimp only [] at h
          simp only [Prod.mk.injEq, Except.ok.injEq] at h
          obtain ⟨h1, _⟩ := h
          subst h1
          rcases List.mem_cons.mp hr with h2 | h2
          · subst h2
            obtain ⟨res, _, _, _, hrec2⟩ := processOutcome_ok ho
            exact ⟨g, res, by simp, hrec2⟩
          · obtain ⟨f, res, hf, hrr⟩ := ih hrec r h2
            exact ⟨f, res, by simp [hf], hrr⟩
theorem le_adjustQuality (regions : List Region) (tq : Nat) :
    tq ≤ adjustQuality regions tq := by
  unfold adjustQuality
  split
  next h =>
    simp only [Bool.and_eq_true, decide_eq_true_eq] at h
    omega
  next h => exact Nat.le_refl tq

theorem adjustQuality_gt {regions : List Region} {tq : Nat}
    (h : tq < adjustQuality regions tq) : hasImportantRegions regions = true := by
  by_cases hc : hasImportantRegions regions
  · exact hc
  · unfold adjustQuality at h
    simp [hc] at h

theorem processFile_fst {env : UploadEnv} {format : String} {quality : Nat}
    {prompt : Option String} {f : FileInput} {st : ServerState} {r : ImageRecord}
    {st' : ServerState}
    (h : processFile env format quality prompt f st = (.ok r, st')) :
    processOutcome env format quality prompt f = .ok r := by
  rw [processFile_eq] at h
  have h1 := congrArg Prod.fst h
  simpa using h1

/-- Claim C2, counterexample.  The claim states the quality bump as
unconditional on the requested quality ("raise quality by a fixed increment
(+10, capped at 95)") and lists `phone` among the keywords.  The code raises
only when the requested quality is below 90, and its keyword is
`'cell phone'`: at requested quality 92 with a detected `person`, the code
encodes at 92 while the claim mandates 95; with a detected `phone` at
requested quality 70, the code encodes at 70 while the claim mandates 80. -/
theorem adaptive_quality_claim_false :
    (∃ res p b,
      adaptiveCompress trivialSharp [7] "uploads/original-1.jpg"
          [{ label := some "person" }] "webp" 92 = .ok (res, p, b) ∧
      res.quality = 92 ∧
      res.quality ≠ specAdjustQuality [{ label := some "person" }] 92) ∧
    specAdjustQuality [{ label := some "person" }] 92 = 95 ∧
    (∃ res p b,
      adaptiveCompress trivialSharp [7] "uploads/original-2.png"
          [{ label := some "phone" }] "webp" 70 = .ok (res, p, b) ∧
      res.quality = 70 ∧
      res.quality ≠ specAdjustQuality [{ label := some "phone" }] 70) ∧
    specAdjustQuality [{ label := some "phone" }] 70 = 80 := by
  refine ⟨⟨⟨"uploads/compressed-webp-1.jpg", 1, 92, "webp"⟩,
      "uploads/compressed-webp-1.jpg", [7], by decide, by decide, by decide⟩, by decide,
    ⟨⟨"uploads/compressed-webp-2.png", 1, 70, "webp"⟩,
      "uploads/compressed-webp-2.png", [7], by decide, by decide, by decide⟩, by decide⟩

/-- Claim C2, amended: the quality used for encoding is the requested quality
bumped by +10 (capped at 95) exactly when some detected label contains one of
person, face, text, book, laptop, cell phone AND the requested quality is
below 90; it is never below the requested quality, and exceeds it only when
important labels were detected.  In particular a prompt-less upload at
quality 70 is encoded at quality at least 70. -/
theorem adaptive_quality_amended :
    (∀ (m : SharpModel) (src : Buffer) (path : String) (regions : List Region)
        (tf : String) (tq : Nat) (res : CompressResult) (p : String) (b : Buffer),
      adaptiveCompress m src path regions tf tq = .ok (res, p, b) →
      res.quality = adjustQuality regions tq ∧
      tq ≤ res.quality ∧
      (tq < res.quality → hasImportantRegions regions = true)) ∧
    (∀ (env : UploadEnv) (fmt : String) (f : FileInput) (st : ServerState)
        (r : ImageRecord) (st' : ServerState),
      processFile env fmt 70 none f st = (.ok r, st') →
      70 ≤ r.quality ∧
      (70 < r.quality → hasImportantRegions (detectRegions (env.detect f.path)) = true)) := by
  constructor
  · intro m src path regions tf tq res p b h
    obtain ⟨buf, fo, _, _, _, _, hres⟩ := adaptiveCompress_ok h
    subst hres
    exact ⟨rfl, le_adjustQuality regions tq, fun hlt => adjustQuality_gt hlt⟩
  · intro env fmt f st r st' h
    obtain ⟨res, wpath, wbytes, hc, hrec⟩ := processOutcome_ok (processFile_fst h)
    subst hrec
    obtain ⟨buf, fo, _, _, _, _, hres⟩ := adaptiveCompress_ok hc
    subst hres
    refine ⟨le_adjustQuality _ _, fun hlt => adjustQuality_gt hlt⟩

theorem adaptive_quality_amended_witness :
    (⟨"uploads/compressed-webp-1.jpg", 1, 80, "webp"⟩ : CompressResult).quality =
        adjustQuality [] 80 ∧
    80 ≤ (⟨"uploads/compressed-webp-1.jpg", 1, 80, "webp"⟩ : CompressResult).quality ∧
    (80 < (⟨"uploads/compressed-webp-1.jpg", 1, 80, "webp"⟩ : CompressResult).quality →
      hasImportantRegions [] = true) :=
  adaptive_quality_amended.1 trivialSharp [7] "uploads/original-1.jpg" [] "webp" 80
    ⟨"uploads/compressed-webp-1.jpg", 1, 80, "webp"⟩
    "uploads/compressed-webp-1.jpg" [7] (by decide)

/-- Claim C5: when the Gemini request fails, `/api/ai-quality` still answers
success with the hard-coded defaults webp @ 80 and context "Default
optimization"; when the request succeeds but a key's regex does not match,
that key falls back (quality to 80, format to webp). -/
theorem aiQuality_fallback :
    (∀ p : String, p ≠ "" → ∀ err : String,
      aiQualityHandler (fun _ => .error err) (some p) =
        .ok true { quality := 80, format := "webp", context := "Default optimization" }) ∧
    (∀ resp : String, matchQuality resp = none →
      (getAIQualityRecommendation (.ok resp)).quality = 80) ∧
    (∀ resp : String, matchFormat resp = none →
      (getAIQualityRecommendation (.ok resp)).format = "webp") := by
  refine ⟨?_, ?_, ?_⟩
  · intro p hp err
    unfold aiQualityHandler
    rw [if_pos (show truthy (some p) = true by
      simp only [truthy, Bool.not_eq_true']
      cases hpe : p.isEmpty
      · rfl
      · exact absurd ((String.isEmpty_iff p).mp hpe) hp)]
    rfl
  · intro resp h
    unfold getAIQualityRecommendation
    simp [h]
  · intro resp h
    unfold getAIQualityRecommendation
    simp [h]

theorem aiQuality_fallback_witness :
    aiQualityHandler (fun _ => .error "ECONNREFUSED") (some "optimize for email") =
      .ok true { quality := 80, format := "webp", context := "Default optimization" } ∧
    (getAIQualityRecommendation (.ok "Sure, use high quality and the webp codec.")).quality
      = 80 ∧
    (getAIQualityRecommendation (.ok "Sure, use high quality and the webp codec.")).format
      = "webp" :=
  ⟨aiQuality_fallback.1 "optimize for email" (by decide) "ECONNREFUSED",
   aiQuality_fallback.2.1 "Sure, use high quality and the webp codec." (by decide),
   aiQuality_fallback.2.2 "Sure, use high quality and the webp codec." (by decide)⟩

/-- Claim C8: the quality parser does no range validation beyond parsing the
digits after QUALITY: — the model response "QUALITY: 150" makes the operation
return quality 150, outside 0-100, to its caller. -/
theorem aiQuality_no_range_validation :
    (getAIQualityRecommendation
        (.ok "QUALITY: 150\nFORMAT: webp\nCONTEXT: large print poster")).quality = 150 ∧
    100 < (getAIQualityRecommendation
        (.ok "QUALITY: 150\nFORMAT: webp\nCONTEXT: large print poster")).quality := by
  constructor <;> decide

/-- Claim C3: the recorded `compressedSize` is the byte length of the
first-pass encoded buffer, while the file written at `compressedPath` is a
second re-encode of that buffer whose format is inferred from the path
extension; `compressedPath` keeps the original upload's extension (only the
filename prefix changes), so the on-disk bytes can differ in size from the
recorded `compressedSize` and in encoding from the recorded `format` (a
webp-compressed .jpg upload is written back as JPEG). -/
theorem compress_disk_vs_recorded :
    (∀ (m : SharpModel) (src : Buffer) (path : String) (regions : List Region)
        (tf : String) (tq : Nat) (res : CompressResult) (p : String) (b : Buffer),
      adaptiveCompress m src path regions tf tq = .ok (res, p, b) →
      ∃ buf f,
        m.encode (encodeOpFor tf (adjustQuality regions tq)) src = .ok buf ∧
        res.compressedSize = buf.length ∧
        p = compressedPathOf path tf ∧
        inferFormat (extnameOf p) = some f ∧
        m.write f buf = .ok b) ∧
    (∀ (tf s e : String), (∀ c ∈ tf.data, c ≠ '.' ∧ c ≠ '/') →
      (∀ c ∈ s.data, c ≠ '/') → (∀ c ∈ e.data, c ≠ '/') →
      extnameOf (compressedPathOf ("uploads/original-" ++ (s ++ e)) tf) =
        extnameOf ("uploads/original-" ++ (s ++ e))) ∧
    (∃ res p b,
      adaptiveCompress c3Sharp [7] "uploads/original-1.jpg" [] "webp" 80 = .ok (res, p, b) ∧
      res.format = "webp" ∧ res.compressedSize = 1 ∧
      extnameOf p = ".jpg" ∧ inferFormat (extnameOf p) = some SharpFormat.jpeg ∧
      b.length = 2 ∧ b.length ≠ res.compressedSize) := by
  refine ⟨?_, ?_, ?_⟩
  · intro m src path regions tf tq res p b h
    obtain ⟨buf, fo, henc, hinf, hw, hp, hres⟩ := adaptiveCompress_ok h
    subst hres
    subst hp
    exact ⟨buf, fo, henc, rfl, rfl, hinf, hw⟩
  · intro tf s e htf hs he
    exact extname_preserved tf s e htf hs he
  · exact ⟨⟨"uploads/compressed-webp-1.jpg", 1, 80, "webp"⟩,
      "uploads/compressed-webp-1.jpg", [4, 5], by decide, by decide, by decide,
      by decide, by decide, by decide, by decide⟩

theorem compress_disk_vs_recorded_witness :
    (∃ buf f,
      c3Sharp.encode (encodeOpFor "webp" (adjustQuality [] 80)) [7] = .ok buf ∧
      (⟨"uploads/compressed-webp-1.jpg", 1, 80, "webp"⟩ :
          CompressResult).compressedSize = buf.length ∧
      "uploads/compressed-webp-1.jpg" = compressedPathOf "uploads/original-1.jpg" "webp" ∧
      inferFormat (extnameOf "uploads/compressed-webp-1.jpg") = some f ∧
      c3Sharp.write f buf = .ok [4, 5]) ∧
    extnameOf (compressedPathOf ("uploads/original-" ++ ("88-" ++ ".jpg")) "webp") =
      extnameOf ("uploads/original-" ++ ("88-" ++ ".jpg")) :=
  ⟨compress_disk_vs_recorded.1 c3Sharp [7] "uploads/original-1.jpg" [] "webp" 80
    ⟨"uploads/compressed-webp-1.jpg", 1, 80, "webp"⟩
    "uploads/compressed-webp-1.jpg" [4, 5] (by decide),
   compress_disk_vs_recorded.2.1 "webp" "88-" ".jpg" (by decide) (by decide) (by decide)⟩

theorem round_intCast_div_natCast (n : ℤ) (d : ℕ) :
    round ((n : ℚ) / (d : ℚ)) = (2 * n + d) / ((2 * d : ℕ) : ℤ) := by
  by_cases hd : d = 0
  · subst hd
    simp [round_eq]
    norm_num [Int.floor_eq_zero_iff, Set.mem_Ico]
  · have hdQ : ((d : ℚ)) ≠ 0 := by exact_mod_cast hd
    rw [round_eq]
    have h1 : (n : ℚ) / d + 1 / 2 = ((2 * n + d : ℤ) : ℚ) / (((2 * d : ℕ) : ℕ) : ℚ) := by
      push_cast
      field_simp
      ring
    rw [h1, Rat.floor_intCast_div_natCast]

/-- The integer-hundredths value stored in `compressionRatio` is exactly the
two-decimal rounding `round((o - c) / o * 100, 2)` of the percentage, read
back as a rational (`round(x, 2) = round(x * 100) / 100`). -/
theorem ratioCents_eq_round (o c : Nat) :
    ((ratioCents o c : ℤ) : ℚ) / 100 =
      ((round ((((o : ℚ) - c) / o * 100) * 100) : ℤ) : ℚ) / 100 := by
  by_cases ho : o = 0
  · subst ho
    simp [ratioCents, round_eq]
    norm_num [Int.floor_eq_zero_iff, Set.mem_Ico]
  · have hoQ : ((o : ℚ)) ≠ 0 := by exact_mod_cast ho
    have h1 : (((o : ℚ) - c) / o * 100) * 100 =
        ((10000 * ((o : Int) - c) : ℤ) : ℚ) / ((o : ℕ) : ℚ) := by
      push_cast
      field_simp
      ring
    rw [h1, round_intCast_div_natCast]
    unfold ratioCents
    push_cast
    ring_nf

/-- Claim C1: every record returned by a successful upload stores
`compressionRatio` equal to `round((originalSize - compressedSize) /
originalSize * 100, 2)` of its own stored sizes (the stored integer is the
value in hundredths, so it is compared after division by 100); the ratio is
computed from the two stored sizes and from nothing else. -/
theorem upload_ratio_derived
    (env : UploadEnv) (formatParam : Option String) (qualityParam : Option Nat)
    (prompt : Option String) (files : List FileInput) (st : ServerState)
    (rs : List ImageRecord) (batch : Bool) (st' : ServerState)
    (h : uploadHandler env formatParam qualityParam prompt files st = (.ok rs batch, st')) :
    ∀ r ∈ rs,
      r.compressionRatio = ratioCents r.originalSize r.compressedSize ∧
      ((r.compressionRatio : ℤ) : ℚ) / 100 =
        ((round ((((r.originalSize : ℚ) - r.compressedSize) / r.originalSize * 100) * 100) :
          ℤ) : ℚ) / 100 := by
  intro r hr
  have hcents : r.compressionRatio = ratioCents r.originalSize r.compressedSize := by
    unfold uploadHandler at h
    split at h
    · simp at h
    · split at h
      next e st2 heq => simp at h
      next rs2 st2 heq =>
        simp only [Prod.mk.injEq, UploadResponse.ok.injEq] at h
        obtain ⟨⟨h1, _⟩, _⟩ := h
        subst h1
        obtain ⟨f, res, _, hrr⟩ := uploadLoop_ok_mem heq r hr
        subst hrr
        rfl
  refine ⟨hcents, ?_⟩
  rw [hcents]
  exact ratioCents_eq_round r.originalSize r.compressedSize

theorem upload_ratio_derived_witness :
    recOne.compressionRatio = ratioCents recOne.originalSize recOne.compressedSize ∧
    ((recOne.compressionRatio : ℤ) : ℚ) / 100 =
      ((round ((((recOne.originalSize : ℚ) - recOne.compressedSize) /
          recOne.originalSize * 100) * 100) : ℤ) : ℚ) / 100 :=
  upload_ratio_derived envOk none none none [fileOne] st0 [recOne] false
    ⟨[recOne], [("uploads/compressed-webp-1.jpg", [7])]⟩ (by decide) recOne (by simp)

theorem processFile_detect_congr (env : UploadEnv) (msg : String)
    (hdet : ∀ p, env.detect p = .error msg) (format : String) (quality : Nat)
    (prompt : Option String) (f : FileInput) (st : ServerState) :
    processFile env format quality prompt f st =
      processFile { env with detect := fun _ => .ok [] } format quality prompt f st := by
  unfold processFile recordOf aiRecOf
  simp [hdet, detectRegions]

theorem uploadLoop_detect_congr (env : UploadEnv) (msg : String)
    (hdet : ∀ p, env.detect p = .error msg) (format : String) (quality : Nat)
    (prompt : Option String) :
    ∀ (fs : List FileInput) (st : ServerState),
      uploadLoop env format quality prompt fs st =
        uploadLoop { env with detect := fun _ => .ok [] } format quality prompt fs st := by
  intro fs
  induction fs with
  | nil => intro st; rfl
  | cons g gs ih =>
    intro st
    rw [uploadLoop, uploadLoop, ← processFile_detect_congr env msg hdet]
    cases hp : processFile env format quality prompt g st with
    | mk o st1 =>
      cases o with
      | error e => rfl
      | ok r =>
        dsimp only []
        rw [ih st1]

/-- Claim C4: the region-detection client returns the parsed response
verbatim on success and the empty list on any thrown error, never
propagating the error; consequently an upload against an unreachable
detection service behaves exactly as one whose detection returns no regions
(in particular it still succeeds when the rest succeeds), and every persisted
record then stores an empty region list. -/
theorem detect_failure_absorbed :
    (∀ d : List Region, detectRegions (.ok d) = d) ∧
    (∀ e : String, detectRegions (.error e) = []) ∧
    (∀ (env : UploadEnv) (msg : String) (formatParam : Option String)
        (qualityParam : Option Nat) (prompt : Option String) (files : List FileInput)
        (st : ServerState),
      (∀ p, env.detect p = .error msg) →
      uploadHandler env formatParam qualityParam prompt files st =
        uploadHandler { env with detect := fun _ => .ok [] } formatParam qualityParam
          prompt files st ∧
      (∀ rs batch st',
        uploadHandler env formatParam qualityParam prompt files st = (.ok rs batch, st') →
        ∀ r ∈ rs, r.aiRegions = [])) := by
  refine ⟨fun d => rfl, fun e => rfl, ?_⟩
  intro env msg formatParam qualityParam prompt files st hdet
  constructor
  · unfold uploadHandler
    rw [uploadLoop_detect_congr env msg hdet]
  · intro rs batch st' h r hr
    unfold uploadHandler at h
    split at h
    · simp at h
    · split at h
      next e st2 heq => simp at h
      next rs2 st2 heq =>
        simp only [Prod.mk.injEq, UploadResponse.ok.injEq] at h
        obtain ⟨⟨h1, _⟩, _⟩ := h
        subst h1
        obtain ⟨f, res, _, hrr⟩ := uploadLoop_ok_mem heq r hr
        subst hrr
        show detectRegions (env.detect f.path) = []
        rw [hdet f.path]
        rfl

theorem detect_failure_absorbed_witness :
    (uploadHandler envDown none none none [fileOne] st0 =
      uploadHandler { envDown with detect := fun _ => .ok [] } none none none [fileOne]
        st0) ∧
    recOne.aiRegions = [] :=
  ⟨((detect_failure_absorbed.2.2 envDown "ETIMEDOUT" none none none [fileOne] st0
      (fun _ => rfl)).1),
   (detect_failure_absorbed.2.2 envDown "ETIMEDOUT" none none none [fileOne] st0
      (fun _ => rfl)).2 [recOne] false
      ⟨[recOne], [("uploads/compressed-webp-1.jpg", [7])]⟩ (by decide) recOne (by simp)⟩

/-- Claim C6: when a (truthy) free-text prompt is supplied, the format and
quality used for compression come from the Gemini recommendation, overriding
the explicit request parameters; with no prompt (absent or empty), the
explicit parameters are used (the recorded quality is in both cases the
chosen quality after the region-based adjustment the compressor applies). -/
theorem prompt_overrides_params :
    (∀ (env : UploadEnv) (fmt : String) (q : Nat) (p : String) (f : FileInput)
        (st : ServerState) (r : ImageRecord) (st' : ServerState),
      p ≠ "" →
      processFile env fmt q (some p) f st = (.ok r, st') →
      r.format = (getAIQualityRecommendation (env.aiQuality p)).format ∧
      r.quality = adjustQuality (detectRegions (env.detect f.path))
        (getAIQualityRecommendation (env.aiQuality p)).quality) ∧
    (∀ (env : UploadEnv) (fmt : String) (q : Nat) (prompt : Option String) (f : FileInput)
        (st : ServerState) (r : ImageRecord) (st' : ServerState),
      truthy prompt = false →
      processFile env fmt q prompt f st = (.ok r, st') →
      r.format = fmt ∧
      r.quality = adjustQuality (detectRegions (env.detect f.path)) q) := by
  constructor
  · intro env fmt q p f st r st' hp h
    have htr : truthy (some p) = true := by
      simp only [truthy, Bool.not_eq_true']
      cases hpe : p.isEmpty
      · rfl
      · exact absurd ((String.isEmpty_iff p).mp hpe) hp
    obtain ⟨res, wpath, wbytes, hc, hrec⟩ := processOutcome_ok (processFile_fst h)
    subst hrec
    obtain ⟨buf, fo, _, _, _, _, hres⟩ := adaptiveCompress_ok hc
    subst hres
    constructor
    · show pickFormat (aiRecOf env (some p)) fmt = _
      rw [aiRecOf, htr]
      rfl
    · show adjustQuality (detectRegions (env.detect f.path))
          (pickQuality (aiRecOf env (some p)) q) = _
      rw [aiRecOf, htr]
      rfl
  · intro env fmt q prompt f st r st' hp h
    obtain ⟨res, wpath, wbytes, hc, hrec⟩ := processOutcome_ok (processFile_fst h)
    subst hrec
    obtain ⟨buf, fo, _, _, _, _, hres⟩ := adaptiveCompress_ok hc
    subst hres
    constructor
    · show pickFormat (aiRecOf env prompt) fmt = _
      rw [aiRecOf, hp]
      rfl
    · show adjustQuality (detectRegions (env.detect f.path))
          (pickQuality (aiRecOf env prompt) q) = _
      rw [aiRecOf, hp]
      rfl

theorem prompt_overrides_params_witness :
    recAi.format = (getAIQualityRecommendation (envAi.aiQuality "email")).format ∧
    recAi.quality = adjustQuality (detectRegions (envAi.detect fileOne.path))
      (getAIQualityRecommendation (envAi.aiQuality "email")).quality :=
  prompt_overrides_params.1 envAi "webp" 80 "email" fileOne st0 recAi
    ⟨[recAi], [("uploads/compressed-avif-1.jpg", [7])]⟩ (by decide) (by decide)

/-- Claim C7: if any file of a batch fails (codec or storage throw), the
whole request is answered with the 500 payload and no partial results, while
the records already persisted and the files already written for the earlier
files of the same batch (and the disk write the failing file may already
have performed) remain in place — no rollback happens. -/
theorem batch_failure_aborts
    (env : UploadEnv) (formatParam : Option String) (qualityParam : Option Nat)
    (prompt : Option String) (good : List FileInput) (bad : FileInput)
    (rest : List FileInput) (st : ServerState) (e : String)
    (hgood : ∀ g ∈ good, ∃ r,
      processOutcome env (formatParam.getD "webp") (qualityParam.getD 80) prompt g = .ok r)
    (hbad : processOutcome env (formatParam.getD "webp") (qualityParam.getD 80) prompt bad =
      .error e) :
    uploadHandler env formatParam qualityParam prompt (good ++ bad :: rest) st =
      (.serverError "Failed to process images" e,
       { db := st.db ++
           uploadRecords env (formatParam.getD "webp") (qualityParam.getD 80) prompt good,
         disk := st.disk ++
           uploadWrites env (formatParam.getD "webp") (qualityParam.getD 80) prompt good ++
           processWrites env (formatParam.getD "webp") (qualityParam.getD 80) prompt
             bad }) := by
  unfold uploadHandler
  rw [if_neg (by simp)]
  rw [uploadLoop_err env (formatParam.getD "webp") (qualityParam.getD 80) prompt good bad
    rest st e hgood hbad]

theorem batch_failure_aborts_witness :
    uploadHandler envC7 none none none ([fileOne] ++ fileTwo :: []) st0 =
      (.serverError "Failed to process images" "db down",
       { db := st0.db ++ uploadRecords envC7 "webp" 80 none [fileOne],
         disk := st0.disk ++ uploadWrites envC7 "webp" 80 none [fileOne] ++
           processWrites envC7 "webp" 80 none fileTwo }) :=
  batch_failure_aborts envC7 none none none [fileOne] fileTwo [] st0 "db down"
    (by
      intro g hg
      have hg1 : g = fileOne := by simpa using hg
      subst hg1
      exact ⟨recOne, by decide⟩)
    (by decide)

/-- Claim C9: for a non-empty id list, the zip stream contains exactly the
compressed files of the looked-up records whose backing file still exists on
disk (ids whose `compressedPath` is gone are skipped, nothing else is added),
and the response carries only the Content-Type and Content-Disposition
headers — no Content-Length is pre-computed. -/
theorem download_batch_exact (db : List StoredImage) (disk : List String)
    (ids : List Nat) (h : ids ≠ []) :
    ∃ hs es, downloadBatch db disk (some ids) = .zipStream hs es ∧
      (∀ nm pth, (nm, pth) ∈ es ↔
        ∃ s, s ∈ db ∧ s.id ∈ ids ∧ s.record.compressedPath = pth ∧ pth ∈ disk ∧
          nm = "compressed-" ++ s.record.format ++ "-" ++ s.record.originalName) ∧
      (∀ hv ∈ hs, hv.1 ≠ "Content-Length") := by
  refine ⟨[("Content-Type", "application/zip"),
      ("Content-Disposition", "attachment; filename=\"compressed-images.zip\"")],
    ((db.filter (fun s => ids.contains s.id)).filter
        (fun s => disk.contains s.record.compressedPath)).map
      (fun s => ("compressed-" ++ s.record.format ++ "-" ++ s.record.originalName,
                 s.record.compressedPath)), ?_, ?_, ?_⟩
  · unfold downloadBatch
    dsimp only []
    rw [if_neg (by simpa [List.isEmpty_iff] using h)]
  · intro nm pth
    simp only [List.mem_map, List.mem_filter]
    constructor
    · rintro ⟨s, ⟨⟨hdb, hid⟩, hdisk⟩, heq⟩
      simp only [Prod.mk.injEq] at heq
      refine ⟨s, hdb, ?_, heq.2.symm ▸ ?_, ?_, heq.1.symm⟩
      · simpa [List.contains_iff_exists_mem_beq] using hid
      · rfl
      · rw [← heq.2]
        simpa [List.contains_iff_exists_mem_beq] using hdisk
    · rintro ⟨s, hdb, hid, hpth, hdisk, hnm⟩
      refine ⟨s, ⟨⟨hdb, ?_⟩, ?_⟩, ?_⟩
      · simpa [List.contains_iff_exists_mem_beq] using hid
      · rw [hpth]
        simpa [List.contains_iff_exists_mem_beq] using hdisk
      · rw [hnm, hpth]
  · intro hv hhv
    rcases List.mem_cons.mp hhv with h1 | h1
    · subst h1; decide
    · rcases List.mem_cons.mp h1 with h2 | h2
      · subst h2; decide
      · simp at h2

theorem download_batch_exact_witness :
    ∃ hs es, downloadBatch dbW diskW (some [1, 2, 3]) = .zipStream hs es ∧
      (∀ nm pth, (nm, pth) ∈ es ↔
        ∃ s, s ∈ dbW ∧ s.id ∈ [1, 2, 3] ∧ s.record.compressedPath = pth ∧ pth ∈ diskW ∧
          nm = "compressed-" ++ s.record.format ++ "-" ++ s.record.originalName) ∧
      (∀ hv ∈ hs, hv.1 ≠ "Content-Length") :=
  download_batch_exact dbW diskW [1, 2, 3] (by simp)

/-- Claim C10: `/api/recent` returns at most 10 summaries, ordered newest
first by `createdAt`, and it does not change the server state, so a second
request with no intervening uploads returns the identical ordered list. -/
theorem recent_limit_sorted_idempotent (st : ServerState) :
    (recentHandler st).1.length ≤ 10 ∧
    List.Pairwise (fun a b => b.createdAt ≤ a.createdAt) (recentHandler st).1 ∧
    (recentHandler ((recentHandler st).2)).1 = (recentHandler st).1 := by
  refine ⟨?_, ?_, rfl⟩
  · show (((st.db.insertionSort newestFirst).take 10).map summaryOf).length ≤ 10
    rw [List.length_map, List.length_take]
    exact Nat.min_le_left 10 _
  · show List.Pairwise _ (((st.db.insertionSort newestFirst).take 10).map summaryOf)
    have hsorted : List.Sorted newestFirst (st.db.insertionSort newestFirst) :=
      List.sorted_insertionSort newestFirst st.db
    have htake : List.Pairwise newestFirst ((st.db.insertionSort newestFirst).take 10) :=
      hsorted.sublist (List.take_sublist 10 _)
    exact htake.map summaryOf (fun a b hab => hab)

end ImageCompressor
